import Mathlib

/-!
Verification of the team-balancer core (src/team_balancer.py, src/api.py).

Shallow embedding notes:
* `Player.overall` (a Python float read from the CSV) is modelled as `ℚ`.
* The external MILP solver (PuLP/CBC, `prob.solve` at team_balancer.py:102) is
  modelled as an oracle: each attempt carries the status the solver returned and
  the 0/1 valuation of the decision variables `player_vars[i, j]`
  (`assign i j = true` iff `value(player_vars[i,j]) == 1`).
* `random.shuffle(self.players)` (team_balancer.py:151) mutates the balancer's
  player list in place; each attempt therefore carries an abstract `shuffle`
  function and the run threads the player-list state through the attempts.
* Python's `float('inf')` initial best difference is modelled as `(⊤ : WithTop ℚ)`.
-/

structure Player where
  name : String
  overall : ℚ
  position : String
deriving DecidableEq, Repr

/-- A team assignment, as returned by `_try_balance_teams`: team index `j` maps to
the list of players extracted for team `j` (the Python `dict` has a key `j`
exactly when that list is non-empty). -/
abbrev TeamsMap := Nat → List Player

def emptyTeams : TeamsMap := fun _ => []

/-- PuLP solver statuses (`LpStatus[prob.status]`). -/
inductive LpResultStatus where
  | Optimal
  | NotSolved
  | Infeasible
  | Unbounded
  | Undefined
deriving DecidableEq, Repr

/-- team_balancer.py:108 — a status is usable when it is `Optimal` or `Not Solved`. -/
def usable : LpResultStatus → Bool
  | .Optimal => true
  | .NotSolved => true
  | _ => false

/-- One attempt of the multi-start loop: the in-place shuffle it performs on the
shared player list, and the solver oracle's outcome for the model built from the
shuffled list. -/
structure Attempt where
  shuffle : List Player → List Player
  status : LpResultStatus
  assign : Nat → Nat → Bool

/-- `self.players[i]` with an irrelevant default (all uses have `i < ps.length`). -/
def getPlayer (ps : List Player) (i : Nat) : Player :=
  ps.getD i ⟨"", 0, ""⟩

/-- team_balancer.py:25 — `self.position_requirements`. -/
def positionRequirements : List (String × Nat) :=
  [("DEF", 2), ("MID", 2), ("ATT", 2)]

/-- team_balancer.py:67 — each player is assigned to exactly one team
(`lpSum(player_vars[i,j] for j in range(num_teams)) == 1`). -/
def exactlyOneTeam (n T : Nat) (a : Nat → Nat → Bool) : Prop :=
  ∀ i ∈ List.range n,
    ((List.range T).map (fun j => if a i j then (1 : Nat) else 0)).sum = 1

/-- team_balancer.py:97 — each team has `len(self.players) // num_teams` players. -/
def equalTeamSizes (n T : Nat) (a : Nat → Nat → Bool) : Prop :=
  ∀ j ∈ List.range T,
    ((List.range n).map (fun i => if a i j then (1 : Nat) else 0)).sum = n / T

/-- team_balancer.py:90 — per-team position minimums
(`lpSum(player_vars[i,j] for i ... if position == pos) >= min_count`). -/
def quotasMet (ps : List Player) (T : Nat) (a : Nat → Nat → Bool) : Prop :=
  ∀ j ∈ List.range T, ∀ pq ∈ positionRequirements,
    pq.2 ≤ ((List.range ps.length).map
      (fun i => if (getPlayer ps i).position == pq.1 && a i j then (1 : Nat) else 0)).sum

/-- The solver contract (§4.2): a usable status comes with a 0/1 valuation that
satisfies all constraints of the model built from the (shuffled) player list. -/
def FeasibleAssign (ps : List Player) (T : Nat) (a : Nat → Nat → Bool) : Prop :=
  exactlyOneTeam ps.length T a ∧ equalTeamSizes ps.length T a ∧ quotasMet ps T a

instance (ps : List Player) (T : Nat) (a : Nat → Nat → Bool) :
    Decidable (FeasibleAssign ps T a) := by
  unfold FeasibleAssign exactlyOneTeam equalTeamSizes quotasMet
  infer_instance

/-- team_balancer.py:109-112 — team `j` collects `self.players[i]` for the `i`
(in increasing order) whose decision variable for team `j` is valued 1. -/
def teamMembers (ps : List Player) (a : Nat → Nat → Bool) (j : Nat) : List Player :=
  ((List.range ps.length).filter (fun i => a i j)).map (getPlayer ps)

/-- The extracted `teams` dict: keys only ever come from `range(num_teams)`. -/
def extractTeams (ps : List Player) (T : Nat) (a : Nat → Nat → Bool) : TeamsMap :=
  fun j => if j < T then teamMembers ps a j else []

/-- The keys of the `teams` dict, i.e. the teams with at least one member. -/
def teamsKeys (T : Nat) (t : TeamsMap) : List Nat :=
  (List.range T).filter (fun j => !(t j).isEmpty)

/-- Python truthiness of the `teams` dict. -/
def teamsNonempty (T : Nat) (t : TeamsMap) : Bool :=
  !(teamsKeys T t).isEmpty

/-- `sum(p.overall for p in players)`. -/
def ratingSum (ps : List Player) : ℚ :=
  (ps.map Player.overall).sum

/-- `sum(p.overall for p in players) / len(players)` — only ever applied to the
non-empty member lists behind the dict's keys. -/
def teamAvg (ps : List Player) : ℚ :=
  ratingSum ps / (ps.length : ℚ)

/-- Python's built-in `max` on a list, `none` on the empty list (where Python
would raise `ValueError`). -/
def pyMax : List ℚ → Option ℚ
  | [] => none
  | x :: xs => some (xs.foldl max x)

/-- Python's built-in `min` on a list, `none` on the empty list. -/
def pyMin : List ℚ → Option ℚ
  | [] => none
  | x :: xs => some (xs.foldl min x)

/-- team_balancer.py:116-118 — the average rating of each team in the dict, in
key order (`teams.values()`). -/
def teamMeansOf (T : Nat) (t : TeamsMap) : List ℚ :=
  (teamsKeys T t).map (fun j => teamAvg (t j))

/-- `max(team_ratings) - min(team_ratings)`; `none` when the dict is empty. -/
def maxDiffOf (T : Nat) (t : TeamsMap) : Option ℚ :=
  match pyMax (teamMeansOf T t), pyMin (teamMeansOf T t) with
  | some M, some m => some (M - m)
  | _, _ => none

/-- team_balancer.py:104-120 — result extraction of `_try_balance_teams`:
for a usable status the teams are read off the variable valuation and the
max rating difference is computed when the dict is non-empty; otherwise the
empty dict and `float('inf')` are returned. -/
def tryBalanceTeams (ps : List Player) (T : Nat) (st : LpResultStatus)
    (a : Nat → Nat → Bool) : TeamsMap × WithTop ℚ :=
  if usable st then
    let t := extractTeams ps T a
    match maxDiffOf T t with
    | some d => (t, (d : WithTop ℚ))
    | none => (t, ⊤)
  else (emptyTeams, ⊤)

/-- team_balancer.py:156-159 — `if teams and max_diff < best_diff:` keep the
candidate, else keep the running best. -/
def updateBest (T : Nat) (best cand : TeamsMap × WithTop ℚ) : TeamsMap × WithTop ℚ :=
  if teamsNonempty T cand.1 = true ∧ cand.2 < best.2 then cand else best

/-- The state of one run of `balance_teams`: the (mutated) player list, the
running best assignment and difference, and how many times `prob.solve` ran. -/
structure RunState where
  players : List Player
  bestTeams : TeamsMap
  bestDiff : WithTop ℚ
  solverCalls : Nat

/-- team_balancer.py:148-159 — one iteration of the attempt loop: shuffle the
shared player list in place, run `_try_balance_teams` (exactly one solver
invocation), and fold the candidate into the running best. -/
def runAttempt (T : Nat) (s : RunState) (a : Attempt) : RunState :=
  let ps := a.shuffle s.players
  let cand := tryBalanceTeams ps T a.status a.assign
  let best := updateBest T (s.bestTeams, s.bestDiff) cand
  ⟨ps, best.1, best.2, s.solverCalls + 1⟩

/-- team_balancer.py:122-167 — `balance_teams`: the divisibility check happens
before the attempt loop; on failure the empty dict is returned with no solver
invocation, otherwise the attempts are folded over the initial state. -/
def balanceTeamsRun (ps : List Player) (T : Nat) (atts : List Attempt) : RunState :=
  if ps.length % T ≠ 0 then ⟨ps, emptyTeams, ⊤, 0⟩
  else atts.foldl (runAttempt T) ⟨ps, emptyTeams, ⊤, 0⟩

/-- The dict returned by `balance_teams`. -/
def balance_teams (ps : List Player) (T : Nat) (atts : List Attempt) : TeamsMap :=
  (balanceTeamsRun ps T atts).bestTeams

/-- The working player list seen by each successive attempt (each attempt
shuffles the list left behind by the previous one). -/
def workingLists (ps : List Player) : List Attempt → List (List Player)
  | [] => []
  | a :: rest => a.shuffle ps :: workingLists (a.shuffle ps) rest

/-- All players of the returned dict, concatenated in key order. -/
def unionTeams (T : Nat) (t : TeamsMap) : List Player :=
  (teamsKeys T t).flatMap t

/-! ## Result aggregation (src/api.py, lines 88-119 / 148-179) -/

/-- The fixed-key dictionary `{'DEF': 0, 'MID': 0, 'ATT': 0}` of api.py:98. -/
structure PosDist where
  DEF : Nat
  MID : Nat
  ATT : Nat
deriving DecidableEq, Repr

/-- `pos_dist[p.position] += 1` — a `KeyError` for any other position string. -/
def posDistAdd (d : PosDist) (p : Player) : Except String PosDist :=
  if p.position = "DEF" then .ok { d with DEF := d.DEF + 1 }
  else if p.position = "MID" then .ok { d with MID := d.MID + 1 }
  else if p.position = "ATT" then .ok { d with ATT := d.ATT + 1 }
  else .error "KeyError"

/-- api.py:99-100 — the position-count loop over a team's players. -/
def posDistFold (d : PosDist) : List Player → Except String PosDist
  | [] => .ok d
  | p :: rest =>
    match posDistAdd d p with
    | .error e => .error e
    | .ok d' => posDistFold d' rest

def posDistOf (ps : List Player) : Except String PosDist :=
  posDistFold ⟨0, 0, 0⟩ ps

structure TeamOutput where
  team_number : Nat
  players : List Player
  average_rating : ℚ
  position_distribution : PosDist
  total_rating : ℚ
deriving DecidableEq, Repr

structure BalanceResponse where
  teams : List TeamOutput
  overall_mean : ℚ
  max_rating_difference : ℚ
deriving DecidableEq, Repr

/-- api.py:94-109 — the per-team body of the statistics loop. -/
def teamOutputOf (j : Nat) (ps : List Player) : Except String TeamOutput :=
  match posDistOf ps with
  | .error e => .error e
  | .ok dist => .ok ⟨j + 1, ps, teamAvg ps, dist, ratingSum ps⟩

/-- api.py:92-109 — the statistics loop over `sorted(teams.items())`; the first
`KeyError` aborts the whole computation. -/
def buildTeamOutputs (t : TeamsMap) : List Nat → Except String (List TeamOutput)
  | [] => .ok []
  | j :: rest =>
    match teamOutputOf j (t j) with
    | .error e => .error e
    | .ok o =>
      match buildTeamOutputs t rest with
      | .error e => .error e
      | .ok os => .ok (o :: os)

/-- api.py:88-118 — the statistics computation from a returned `teams` dict:
per-team outputs, overall mean (`ZeroDivisionError` when there are no players),
and `max(team_means) - min(team_means)`. -/
def computeStatistics (T : Nat) (t : TeamsMap) : Except String BalanceResponse :=
  match buildTeamOutputs t (teamsKeys T t) with
  | .error e => .error e
  | .ok outs =>
    let allPlayers := (teamsKeys T t).flatMap t
    if allPlayers.length = 0 then .error "ZeroDivisionError"
    else
      let overallMean := ratingSum allPlayers / (allPlayers.length : ℚ)
      let means := outs.map TeamOutput.average_rating
      match pyMax means, pyMin means with
      | some M, some m => .ok ⟨outs, overallMean, M - m⟩
      | _, _ => .error "ValueError"

/-- api.py:85-86 and 121-122 — inside the `try` block, an empty dict raises
`HTTPException(400)`; any exception escaping the block (including that one,
since `HTTPException` is an `Exception`) is re-raised as status 500. -/
def balanceJsonBody (T : Nat) (t : TeamsMap) : Except String BalanceResponse :=
  if teamsNonempty T t = false then
    .error "Could not balance teams with given constraints"
  else computeStatistics T t

/-- The HTTP status of `/balance/json` after a solve produced `t`. -/
def balanceJsonStatus (T : Nat) (t : TeamsMap) : Nat :=
  match balanceJsonBody T t with
  | .error _ => 500
  | .ok _ => 200

/-- api.py:145-179 — `/balance/csv` duplicates the same aggregation code. -/
def balanceCsvBody (T : Nat) (t : TeamsMap) : Except String BalanceResponse :=
  if teamsNonempty T t = false then
    .error "Could not balance teams with given constraints"
  else computeStatistics T t

/-- The HTTP status of `/balance/csv` after a solve produced `t`. -/
def balanceCsvStatus (T : Nat) (t : TeamsMap) : Nat :=
  match balanceCsvBody T t with
  | .error _ => 500
  | .ok _ => 200

/-! ## Helper lemmas -/

lemma sum_ite_one {α : Type} (l : List α) (p : α → Bool) :
    (l.map (fun x => if p x then (1 : Nat) else 0)).sum = l.countP p := by
  induction l with
  | nil => simp
  | cons x xs ih =>
    by_cases h : p x <;> simp [List.countP_cons, h, ih, Nat.add_comm]

lemma count_flatMap' {α β : Type} [DecidableEq β] (l : List α) (f : α → List β) (b : β) :
    (l.flatMap f).count b = (l.map (fun x => (f x).count b)).sum := by
  induction l with
  | nil => simp
  | cons x xs ih => simp [List.flatMap_cons, List.count_append, ih]

lemma count_range' (n i : Nat) : (List.range n).count i = if i < n then 1 else 0 := by
  induction n with
  | zero => simp
  | succ n ih =>
    rw [List.range_succ, List.count_append, ih]
    simp only [List.count_cons, List.count_nil]
    by_cases h1 : i < n
    · have h3 : i < n + 1 := by omega
      simp [h1, h3, show ¬ (n = i) by omega]
    · by_cases h2 : i = n
      · subst h2; simp [h1]
      · have h3 : ¬ (i < n + 1) := by omega
        simp [h1, h3, show ¬ (n = i) by omega]

lemma count_filter' {α : Type} [DecidableEq α] (p : α → Bool) (l : List α) (x : α) :
    (l.filter p).count x = if p x then l.count x else 0 := by
  by_cases h : p x
  · simp [List.count_filter h, h]
  · have hnot : x ∉ l.filter p := fun hmem => absurd (List.of_mem_filter hmem) (by simp [h])
    simp [h, List.count_eq_zero.mpr hnot]

lemma map_getPlayer_range (ps : List Player) :
    (List.range ps.length).map (getPlayer ps) = ps := by
  apply List.ext_getElem
  · simp
  · intro i h1 h2
    simp only [List.getElem_map, List.getElem_range, getPlayer]
    exact List.getD_eq_getElem ps _ h2

lemma flatMap_map' {α β γ : Type} (l : List α) (f : α → List β) (g : β → γ) :
    l.flatMap (fun x => (f x).map g) = (l.flatMap f).map g := by
  induction l with
  | nil => simp
  | cons x xs ih => simp [List.flatMap_cons, ih]

lemma flatMap_congr' {α β : Type} (l : List α) (f g : α → List β)
    (h : ∀ x ∈ l, f x = g x) : l.flatMap f = l.flatMap g := by
  induction l with
  | nil => simp
  | cons x xs ih =>
    simp only [List.flatMap_cons]
    rw [h x (by simp), ih (fun y hy => h y (by simp [hy]))]

/-! ## Properties of the extraction under the solver contract -/

lemma teamMembers_length (ps : List Player) (T : Nat) (a : Nat → Nat → Bool)
    (hsize : equalTeamSizes ps.length T a) (j : Nat) (hj : j < T) :
    (teamMembers ps a j).length = ps.length / T := by
  have h := hsize j (List.mem_range.mpr hj)
  rw [sum_ite_one] at h
  rw [teamMembers, List.length_map, ← List.countP_eq_length_filter]
  exact h

lemma npt_pos (ps : List Player) (T : Nat) (a : Nat → Nat → Bool)
    (hT : 0 < T) (hsize : equalTeamSizes ps.length T a) (hq : quotasMet ps T a) :
    0 < ps.length / T := by
  have hquota : 2 ≤ ((List.range ps.length).map
      (fun i => if (getPlayer ps i).position == "DEF" && a i 0 then (1 : Nat) else 0)).sum := by
    simpa using hq 0 (List.mem_range.mpr hT) ("DEF", 2) (by simp [positionRequirements])
  have hsz := hsize 0 (List.mem_range.mpr hT)
  have hle : ((List.range ps.length).map
      (fun i => if (getPlayer ps i).position == "DEF" && a i 0 then (1 : Nat) else 0)).sum ≤
      ((List.range ps.length).map (fun i => if a i 0 then (1 : Nat) else 0)).sum := by
    apply List.sum_le_sum
    intro i _
    by_cases h1 : a i 0 <;> by_cases h2 : (getPlayer ps i).position == "DEF" <;> simp [h1, h2]
  omega

lemma indices_perm (n T : Nat) (a : Nat → Nat → Bool) (h1 : exactlyOneTeam n T a) :
    ((List.range T).flatMap (fun j => (List.range n).filter (fun i => a i j))).Perm
      (List.range n) := by
  rw [List.perm_iff_count]
  intro x
  rw [count_flatMap', count_range']
  by_cases hx : x < n
  · simp only [count_filter', count_range', hx, if_true]
    simpa using h1 x (List.mem_range.mpr hx)
  · simp only [count_filter', count_range', hx, if_false, ite_self]
    simp

lemma extractTeams_nonnil (ps : List Player) (T : Nat) (a : Nat → Nat → Bool)
    (hT : 0 < T) (hsize : equalTeamSizes ps.length T a) (hq : quotasMet ps T a)
    (j : Nat) (hj : j < T) : extractTeams ps T a j ≠ [] := by
  have hlen : (extractTeams ps T a j).length = ps.length / T := by
    rw [extractTeams]
    simp only [hj, if_true]
    exact teamMembers_length ps T a hsize j hj
  apply List.ne_nil_of_length_pos
  rw [hlen]
  exact npt_pos ps T a hT hsize hq

lemma teamsKeys_extract (ps : List Player) (T : Nat) (a : Nat → Nat → Bool)
    (hT : 0 < T) (hsize : equalTeamSizes ps.length T a) (hq : quotasMet ps T a) :
    teamsKeys T (extractTeams ps T a) = List.range T := by
  rw [teamsKeys, List.filter_eq_self]
  intro j hj
  have hj' := List.mem_range.mp hj
  simp [extractTeams_nonnil ps T a hT hsize hq j hj']

lemma union_extract_perm (ps : List Player) (T : Nat) (a : Nat → Nat → Bool)
    (hT : 0 < T) (hfeas : FeasibleAssign ps T a) :
    (unionTeams T (extractTeams ps T a)).Perm ps := by
  obtain ⟨h1, h2, h3⟩ := hfeas
  rw [unionTeams, teamsKeys_extract ps T a hT h2 h3]
  have hmem : ∀ j ∈ List.range T, extractTeams ps T a j = teamMembers ps a j := by
    intro j hj
    simp [extractTeams, List.mem_range.mp hj]
  rw [flatMap_congr' _ _ _ hmem]
  have : (List.range T).flatMap (fun j => teamMembers ps a j) =
      ((List.range T).flatMap (fun j => (List.range ps.length).filter (fun i => a i j))).map
        (getPlayer ps) := by
    rw [← flatMap_map']
    rfl
  rw [this]
  have hperm := indices_perm ps.length T a h1
  have := hperm.map (getPlayer ps)
  rwa [map_getPlayer_range] at this

lemma extract_quota (ps : List Player) (T : Nat) (a : Nat → Nat → Bool)
    (hq : quotasMet ps T a) (j : Nat) (hj : j < T)
    (pq : String × Nat) (hpq : pq ∈ positionRequirements) :
    pq.2 ≤ (extractTeams ps T a j).countP (fun p => p.position == pq.1) := by
  have h := hq j (List.mem_range.mpr hj) pq hpq
  rw [sum_ite_one] at h
  simp only [extractTeams, hj, if_true, teamMembers, List.countP_map, List.countP_filter]
  convert h using 2

lemma tryBalanceTeams_fst_usable (ps : List Player) (T : Nat) (st : LpResultStatus)
    (a : Nat → Nat → Bool) (h : usable st = true) :
    (tryBalanceTeams ps T st a).1 = extractTeams ps T a := by
  rw [tryBalanceTeams, if_pos h]
  dsimp only
  split <;> rfl

lemma tryBalanceTeams_fst_unusable (ps : List Player) (T : Nat) (st : LpResultStatus)
    (a : Nat → Nat → Bool) (h : usable st = false) :
    (tryBalanceTeams ps T st a).1 = emptyTeams := by
  rw [tryBalanceTeams, if_neg (by simp [h])]

lemma teamsNonempty_empty (T : Nat) : teamsNonempty T emptyTeams = false := by
  simp [teamsNonempty, teamsKeys, emptyTeams]

lemma pos_of_teamsNonempty (T : Nat) (t : TeamsMap) (h : teamsNonempty T t = true) :
    0 < T := by
  by_contra h0
  have hz : T = 0 := by omega
  subst hz
  simp [teamsNonempty, teamsKeys] at h

lemma workingLists_perm (ps0 : List Player) (atts : List Attempt) :
    ∀ ps : List Player, (∀ a ∈ atts, ∀ l : List Player, (a.shuffle l).Perm l) →
      ps.Perm ps0 → ∀ l ∈ workingLists ps atts, l.Perm ps0 := by
  induction atts with
  | nil => intro ps _ _ l hl; simp [workingLists] at hl
  | cons a rest ih =>
    intro ps hsh hps l hl
    rw [workingLists] at hl
    rcases List.mem_cons.mp hl with rfl | hl'
    · exact ((hsh a (List.mem_cons_self a rest)) ps).trans hps
    · exact ih (a.shuffle ps) (fun b hb => hsh b (List.mem_cons_of_mem a hb))
        (((hsh a (List.mem_cons_self a rest)) ps).trans hps) l hl'

lemma runAttempt_players (T : Nat) (s : RunState) (a : Attempt) :
    (runAttempt T s a).players = a.shuffle s.players := rfl

lemma runAttempt_best (T : Nat) (s : RunState) (a : Attempt) :
    ((runAttempt T s a).bestTeams, (runAttempt T s a).bestDiff) =
      updateBest T (s.bestTeams, s.bestDiff)
        (tryBalanceTeams (a.shuffle s.players) T a.status a.assign) := rfl

lemma foldl_best_inv (T : Nat) (Q : TeamsMap → Prop) (atts : List Attempt) :
    ∀ s : RunState, Q s.bestTeams →
      (∀ x ∈ atts.zip (workingLists s.players atts),
        Q (tryBalanceTeams x.2 T x.1.status x.1.assign).1) →
      Q ((atts.foldl (runAttempt T) s).bestTeams) := by
  induction atts with
  | nil => intro s hQ _; simpa using hQ
  | cons a rest ih =>
    intro s hQ hcand
    rw [List.foldl_cons]
    apply ih
    · show Q (updateBest T (s.bestTeams, s.bestDiff)
        (tryBalanceTeams (a.shuffle s.players) T a.status a.assign)).1
      rw [updateBest]
      split
      · exact hcand (a, a.shuffle s.players) (by rw [workingLists]; simp)
      · exact hQ
    · intro x hx
      refine hcand x ?_
      rw [runAttempt_players] at hx
      rw [workingLists, List.zip_cons_cons]
      exact List.mem_cons_of_mem _ hx

/-- C1: for every run whose attempts shuffle by permutation and whose usable
solver statuses come with constraint-satisfying valuations (the §4.2 contract),
every non-empty dict returned by `balance_teams` has exactly `T` keys, each
team list has exactly `N / T` players, and the concatenation of all team lists
is a permutation of the roster (no duplicates, no omissions). -/
theorem C1_partition (ps : List Player) (T : Nat) (atts : List Attempt)
    (hshuf : ∀ a ∈ atts, ∀ l : List Player, (a.shuffle l).Perm l)
    (hsolver : ∀ x ∈ atts.zip (workingLists ps atts),
      usable x.1.status = true → FeasibleAssign x.2 T x.1.assign) :
    teamsNonempty T (balance_teams ps T atts) = true →
      (teamsKeys T (balance_teams ps T atts)).length = T ∧
      (∀ j < T, (balance_teams ps T atts j).length = ps.length / T) ∧
      (unionTeams T (balance_teams ps T atts)).Perm ps := by
  suffices h : (fun t : TeamsMap => teamsNonempty T t = true →
      (teamsKeys T t).length = T ∧
      (∀ j < T, (t j).length = ps.length / T) ∧
      (unionTeams T t).Perm ps) (balance_teams ps T atts) by exact h
  rw [balance_teams, balanceTeamsRun]
  split
  · intro hne
    rw [show (⟨ps, emptyTeams, ⊤, 0⟩ : RunState).bestTeams = emptyTeams from rfl,
      teamsNonempty_empty] at hne
    cases hne
  · apply foldl_best_inv T (fun t : TeamsMap => teamsNonempty T t = true →
      (teamsKeys T t).length = T ∧
      (∀ j < T, (t j).length = ps.length / T) ∧
      (unionTeams T t).Perm ps) atts
    · intro hne
      rw [show (⟨ps, emptyTeams, ⊤, 0⟩ : RunState).bestTeams = emptyTeams from rfl,
        teamsNonempty_empty] at hne
      cases hne
    · intro x hx hne
      by_cases hu : usable x.1.status = true
      · have hfeas := hsolver x hx hu
        have hx2 : x.2 ∈ workingLists ps atts := (List.of_mem_zip hx).2
        have hperm : x.2.Perm ps :=
          workingLists_perm ps atts ps hshuf (List.Perm.refl ps) x.2 hx2
        rw [tryBalanceTeams_fst_usable _ _ _ _ hu] at hne ⊢
        have hT : 0 < T := pos_of_teamsNonempty T _ hne
        obtain ⟨h1, h2, h3⟩ := hfeas
        have hlen : x.2.length = ps.length := hperm.length_eq
        refine ⟨?_, ?_, ?_⟩
        · rw [teamsKeys_extract x.2 T _ hT h2 h3, List.length_range]
        · intro j hj
          have hml := teamMembers_length x.2 T x.1.assign h2 j hj
          simp only [extractTeams, hj, if_true]
          rw [hml, hlen]
        · exact (union_extract_perm x.2 T x.1.assign hT ⟨h1, h2, h3⟩).trans hperm
      · rw [tryBalanceTeams_fst_unusable _ _ _ _ (by simpa using hu),
          teamsNonempty_empty] at hne
        cases hne

/-- A 12-player roster: four DEF, four MID, four ATT. -/
def psEx : List Player :=
  [⟨"d1", 3, "DEF"⟩, ⟨"d2", 4, "DEF"⟩, ⟨"d3", 2, "DEF"⟩, ⟨"d4", 5, "DEF"⟩,
   ⟨"m1", 3, "MID"⟩, ⟨"m2", 4, "MID"⟩, ⟨"m3", 2, "MID"⟩, ⟨"m4", 5, "MID"⟩,
   ⟨"a1", 3, "ATT"⟩, ⟨"a2", 4, "ATT"⟩, ⟨"a3", 2, "ATT"⟩, ⟨"a4", 5, "ATT"⟩]

/-- A feasible valuation for `psEx` with two teams. -/
def assignEx (i j : Nat) : Bool :=
  if i % 4 < 2 then j == 0 else j == 1

/-- An attempt whose shuffle is the identity and whose solver outcome is an
optimal solve with valuation `assignEx`. -/
def attemptEx : Attempt := ⟨id, .Optimal, assignEx⟩

theorem C1_partition_witness :
    (teamsKeys 2 (balance_teams psEx 2 [attemptEx])).length = 2 ∧
    (balance_teams psEx 2 [attemptEx] 0).length = psEx.length / 2 ∧
    (unionTeams 2 (balance_teams psEx 2 [attemptEx])).Perm psEx := by
  have h := C1_partition psEx 2 [attemptEx]
    (by
      intro a ha l
      rw [List.mem_singleton] at ha
      subst ha
      exact List.Perm.refl l)
    (by
      intro x hx hu
      rw [workingLists, workingLists, List.zip_cons_cons] at hx
      rcases List.mem_singleton.mp hx with rfl
      exact (by decide : FeasibleAssign psEx 2 assignEx))
    (by decide)
  exact ⟨h.1, h.2.1 0 (by decide), h.2.2⟩

/-- C2: under the solver contract (§4.2), every non-empty dict returned by
`balance_teams` satisfies the position quotas: each team has at least the
configured minimum number of members in each quota'd category. -/
theorem C2_quotas (ps : List Player) (T : Nat) (atts : List Attempt)
    (hsolver : ∀ x ∈ atts.zip (workingLists ps atts),
      usable x.1.status = true → FeasibleAssign x.2 T x.1.assign) :
    teamsNonempty T (balance_teams ps T atts) = true →
      ∀ j < T, ∀ pq ∈ positionRequirements,
        pq.2 ≤ (balance_teams ps T atts j).countP (fun p => p.position == pq.1) := by
  suffices h : (fun t : TeamsMap => teamsNonempty T t = true →
      ∀ j < T, ∀ pq ∈ positionRequirements,
        pq.2 ≤ (t j).countP (fun p => p.position == pq.1)) (balance_teams ps T atts) by
    exact h
  rw [balance_teams, balanceTeamsRun]
  split
  · intro hne
    rw [show (⟨ps, emptyTeams, ⊤, 0⟩ : RunState).bestTeams = emptyTeams from rfl,
      teamsNonempty_empty] at hne
    cases hne
  · apply foldl_best_inv T (fun t : TeamsMap => teamsNonempty T t = true →
      ∀ j < T, ∀ pq ∈ positionRequirements,
        pq.2 ≤ (t j).countP (fun p => p.position == pq.1)) atts
    · intro hne
      rw [show (⟨ps, emptyTeams, ⊤, 0⟩ : RunState).bestTeams = emptyTeams from rfl,
        teamsNonempty_empty] at hne
      cases hne
    · intro x hx hne
      by_cases hu : usable x.1.status = true
      · have hfeas := hsolver x hx hu
        rw [tryBalanceTeams_fst_usable _ _ _ _ hu] at hne ⊢
        intro j hj pq hpq
        exact extract_quota x.2 T x.1.assign hfeas.2.2 j hj pq hpq
      · rw [tryBalanceTeams_fst_unusable _ _ _ _ (by simpa using hu),
          teamsNonempty_empty] at hne
        cases hne

theorem C2_quotas_witness :
    2 ≤ (balance_teams psEx 2 [attemptEx] 0).countP (fun p => p.position == "DEF") := by
  have h := C2_quotas psEx 2 [attemptEx]
    (by
      intro x hx hu
      rw [workingLists, workingLists, List.zip_cons_cons] at hx
      rcases List.mem_singleton.mp hx with rfl
      exact (by decide : FeasibleAssign psEx 2 assignEx))
    (by decide)
  exact h 0 (by decide) ("DEF", 2) (by decide)

/-- C3: when the roster size is not evenly divisible by the team count,
`balance_teams` fails immediately: the returned dict is empty, zero solver
invocations occur, and the attempt loop never runs (the player list is
untouched). -/
theorem C3_divisibility (ps : List Player) (T : Nat) (atts : List Attempt)
    (_hT : 0 < T) (hmod : ps.length % T ≠ 0) :
    balance_teams ps T atts = emptyTeams ∧
    (balanceTeamsRun ps T atts).solverCalls = 0 ∧
    (balanceTeamsRun ps T atts).players = ps := by
  rw [balance_teams, balanceTeamsRun, if_pos hmod]
  exact ⟨rfl, rfl, rfl⟩

theorem C3_divisibility_witness :
    balance_teams psEx 5 [attemptEx] = emptyTeams ∧
    (balanceTeamsRun psEx 5 [attemptEx]).solverCalls = 0 ∧
    (balanceTeamsRun psEx 5 [attemptEx]).players = psEx :=
  C3_divisibility psEx 5 [attemptEx] (by decide) (by decide)

/-- C4: a candidate replaces the running best exactly when its dict is
non-empty and its max difference is strictly smaller than the best difference;
in particular a candidate whose difference equals the current best never
replaces it. -/
theorem C4_strict_improvement (T : Nat) (best cand : TeamsMap × WithTop ℚ) :
    (teamsNonempty T cand.1 = true → cand.2 < best.2 → updateBest T best cand = cand) ∧
    (¬(teamsNonempty T cand.1 = true ∧ cand.2 < best.2) → updateBest T best cand = best) ∧
    (cand.2 = best.2 → updateBest T best cand = best) := by
  refine ⟨fun h1 h2 => ?_, fun h => ?_, fun h => ?_⟩
  · rw [updateBest, if_pos ⟨h1, h2⟩]
  · rw [updateBest, if_neg h]
  · rw [updateBest, if_neg (fun hc => absurd hc.2 (by rw [h]; exact lt_irrefl best.2))]

/-- A one-team dict used as a concrete candidate for the selection rule. -/
def tCand : TeamsMap := fun j => if j = 0 then [⟨"x", 3, "DEF"⟩] else []

/-- A different one-team dict with the same max difference. -/
def tCand2 : TeamsMap := fun j => if j = 0 then [⟨"y", 3, "MID"⟩] else []

theorem C4_strict_improvement_witness :
    updateBest 1 (emptyTeams, ⊤) (tCand, ((1 : ℚ) : WithTop ℚ)) =
      (tCand, ((1 : ℚ) : WithTop ℚ)) ∧
    updateBest 1 (tCand, ((1 : ℚ) : WithTop ℚ)) (tCand2, ((1 : ℚ) : WithTop ℚ)) =
      (tCand, ((1 : ℚ) : WithTop ℚ)) := by
  constructor
  · exact (C4_strict_improvement 1 (emptyTeams, ⊤) (tCand, ((1 : ℚ) : WithTop ℚ))).1
      (by decide) (by simp)
  · exact (C4_strict_improvement 1 (tCand, ((1 : ℚ) : WithTop ℚ))
      (tCand2, ((1 : ℚ) : WithTop ℚ))).2.2 rfl

lemma foldl_bestDiff_le (T : Nat) (atts : List Attempt) :
    ∀ s : RunState, (atts.foldl (runAttempt T) s).bestDiff ≤ s.bestDiff := by
  induction atts with
  | nil => intro s; simp
  | cons a rest ih =>
    intro s
    rw [List.foldl_cons]
    refine le_trans (ih (runAttempt T s a)) ?_
    show (updateBest T (s.bestTeams, s.bestDiff)
      (tryBalanceTeams (a.shuffle s.players) T a.status a.assign)).2 ≤ s.bestDiff
    rw [updateBest]
    split
    · next h => exact le_of_lt h.2
    · exact le_refl _

/-- C5: running additional attempts after a shared prefix never worsens the
best recorded max rating difference: best-of-N is monotonically non-increasing
in the number of attempts. -/
theorem C5_monotone (ps : List Player) (T : Nat) (atts more : List Attempt)
    (_hT : 0 < T) :
    (balanceTeamsRun ps T (atts ++ more)).bestDiff ≤
      (balanceTeamsRun ps T atts).bestDiff := by
  by_cases hc : ps.length % T ≠ 0
  · rw [balanceTeamsRun, balanceTeamsRun, if_pos hc, if_pos hc]
  · rw [balanceTeamsRun, balanceTeamsRun, if_neg hc, if_neg hc, List.foldl_append]
    exact foldl_bestDiff_le T more _

theorem C5_monotone_witness :
    (balanceTeamsRun psEx 2 ([attemptEx] ++ [attemptEx])).bestDiff ≤
      (balanceTeamsRun psEx 2 [attemptEx]).bestDiff :=
  C5_monotone psEx 2 [attemptEx] [attemptEx] (by decide)

/-- C6: an attempt with an unusable solver status, or from which no players
could be extracted, is discarded: the running best assignment and best
difference are unchanged, and the run continues with the remaining attempts. -/
theorem C6_discard (T : Nat) (s : RunState) (a : Attempt) (rest : List Attempt)
    (h : usable a.status = false ∨
      teamsNonempty T (tryBalanceTeams (a.shuffle s.players) T a.status a.assign).1 = false) :
    (runAttempt T s a).bestTeams = s.bestTeams ∧
    (runAttempt T s a).bestDiff = s.bestDiff ∧
    (a :: rest).foldl (runAttempt T) s = rest.foldl (runAttempt T) (runAttempt T s a) := by
  have hne : teamsNonempty T
      (tryBalanceTeams (a.shuffle s.players) T a.status a.assign).1 = false := by
    rcases h with h | h
    · rw [tryBalanceTeams_fst_unusable _ _ _ _ h, teamsNonempty_empty]
    · exact h
  have hcond : ¬(teamsNonempty T
      (tryBalanceTeams (a.shuffle s.players) T a.status a.assign).1 = true ∧
      (tryBalanceTeams (a.shuffle s.players) T a.status a.assign).2 <
        (s.bestTeams, s.bestDiff).2) := by
    rintro ⟨hc1, -⟩
    rw [hne] at hc1
    cases hc1
  have hub : updateBest T (s.bestTeams, s.bestDiff)
      (tryBalanceTeams (a.shuffle s.players) T a.status a.assign) =
      (s.bestTeams, s.bestDiff) := by
    rw [updateBest, if_neg hcond]
  refine ⟨?_, ?_, rfl⟩
  · show (updateBest T (s.bestTeams, s.bestDiff)
      (tryBalanceTeams (a.shuffle s.players) T a.status a.assign)).1 = s.bestTeams
    rw [hub]
  · show (updateBest T (s.bestTeams, s.bestDiff)
      (tryBalanceTeams (a.shuffle s.players) T a.status a.assign)).2 = s.bestDiff
    rw [hub]

/-- The run state at the start of a concrete run over `psEx`. -/
def sEx6 : RunState := ⟨psEx, emptyTeams, ⊤, 0⟩

/-- An attempt whose solver outcome is `Infeasible`. -/
def aInf : Attempt := ⟨id, .Infeasible, assignEx⟩

theorem C6_discard_witness :
    (runAttempt 2 sEx6 aInf).bestTeams = sEx6.bestTeams ∧
    (runAttempt 2 sEx6 aInf).bestDiff = sEx6.bestDiff ∧
    ([aInf] : List Attempt).foldl (runAttempt 2) sEx6 =
      ([] : List Attempt).foldl (runAttempt 2) (runAttempt 2 sEx6 aInf) :=
  C6_discard 2 sEx6 aInf [] (Or.inl (by decide))

/-- A two-player roster used to exhibit the in-place shuffle. -/
def psC : List Player := [⟨"p1", 1, "DEF"⟩, ⟨"p2", 2, "MID"⟩]

/-- An attempt whose shuffle reverses the list and whose solve is infeasible. -/
def attemptRev : Attempt := ⟨List.reverse, .Infeasible, fun _ _ => false⟩

/-- C7 counterexample: running an attempt does change the order of the players
sequence held by the balancer — `random.shuffle(self.players)` mutates it in
place — so the sequence is not unchanged "in content and order". -/
theorem C7_counterexample :
    ¬ ((balanceTeamsRun psC 2 [attemptRev]).players = psC) := by decide

/-- C7 amended: running attempts preserves the roster's content as a multiset
(every attempt's shuffle permutes the list), but not its order: after a run the
balancer's players sequence is a permutation of the original roster. -/
theorem C7_amended (ps : List Player) (T : Nat) (atts : List Attempt)
    (hshuf : ∀ a ∈ atts, ∀ l : List Player, (a.shuffle l).Perm l) :
    ((balanceTeamsRun ps T atts).players).Perm ps := by
  rw [balanceTeamsRun]
  split
  · exact List.Perm.refl ps
  · have key : ∀ (l : List Attempt) (s : RunState),
        (∀ a ∈ l, ∀ x : List Player, (a.shuffle x).Perm x) →
        s.players.Perm ps → ((l.foldl (runAttempt T) s).players).Perm ps := by
      intro l
      induction l with
      | nil => intro s _ hs; simpa using hs
      | cons a rest ih =>
        intro s hsh hs
        rw [List.foldl_cons]
        exact ih (runAttempt T s a) (fun b hb x => hsh b (List.mem_cons_of_mem a hb) x)
          (by
            rw [runAttempt_players]
            exact ((hsh a (List.mem_cons_self a rest)) s.players).trans hs)
    exact key atts _ (fun a ha x => hshuf a ha x) (List.Perm.refl ps)

theorem C7_amended_witness :
    ((balanceTeamsRun psC 2 [attemptRev]).players).Perm psC :=
  C7_amended psC 2 [attemptRev] (by
    intro a ha l
    rcases List.mem_singleton.mp ha with rfl
    exact l.reverse_perm)


lemma ratingSum_const (ps : List Player) (r : ℚ) (h : ∀ p ∈ ps, p.overall = r) :
    ratingSum ps = ps.length * r := by
  induction ps with
  | nil => simp [ratingSum]
  | cons p rest ih =>
    rw [ratingSum, List.map_cons, List.sum_cons]
    rw [show (rest.map Player.overall).sum = ratingSum rest from rfl]
    rw [h p (by simp), ih (fun q hq => h q (by simp [hq])), List.length_cons]
    push_cast
    ring

lemma teamAvg_const (ps : List Player) (r : ℚ) (hne : ps ≠ [])
    (h : ∀ p ∈ ps, p.overall = r) : teamAvg ps = r := by
  have hl : (ps.length : ℚ) ≠ 0 := by
    simp only [ne_eq, Nat.cast_eq_zero, List.length_eq_zero]
    exact hne
  rw [teamAvg, ratingSum_const ps r h, mul_comm, mul_div_assoc, div_self hl, mul_one]

lemma foldl_max_const (r : ℚ) : ∀ (l : List ℚ) (acc : ℚ), acc = r →
    (∀ y ∈ l, y = r) → l.foldl max acc = r := by
  intro l
  induction l with
  | nil => intro acc hacc _; simpa using hacc
  | cons y ys ih =>
    intro acc hacc hall
    rw [List.foldl_cons]
    exact ih (max acc y)
      (by rw [hacc, hall y (by simp), max_self])
      (fun z hz => hall z (by simp [hz]))

lemma foldl_min_const (r : ℚ) : ∀ (l : List ℚ) (acc : ℚ), acc = r →
    (∀ y ∈ l, y = r) → l.foldl min acc = r := by
  intro l
  induction l with
  | nil => intro acc hacc _; simpa using hacc
  | cons y ys ih =>
    intro acc hacc hall
    rw [List.foldl_cons]
    exact ih (min acc y)
      (by rw [hacc, hall y (by simp), min_self])
      (fun z hz => hall z (by simp [hz]))

lemma pyMax_const (l : List ℚ) (r : ℚ) (hne : l ≠ []) (h : ∀ y ∈ l, y = r) :
    pyMax l = some r := by
  cases l with
  | nil => exact absurd rfl hne
  | cons x xs =>
    rw [pyMax]
    rw [foldl_max_const r xs x (h x (by simp)) (fun z hz => h z (by simp [hz]))]

lemma pyMin_const (l : List ℚ) (r : ℚ) (hne : l ≠ []) (h : ∀ y ∈ l, y = r) :
    pyMin l = some r := by
  cases l with
  | nil => exact absurd rfl hne
  | cons x xs =>
    rw [pyMin]
    rw [foldl_min_const r xs x (h x (by simp)) (fun z hz => h z (by simp [hz]))]

lemma teamsKeys_mem (T : Nat) (t : TeamsMap) (j : Nat) (hj : j ∈ teamsKeys T t) :
    j < T ∧ t j ≠ [] := by
  have h := List.mem_filter.mp hj
  refine ⟨List.mem_range.mp h.1, ?_⟩
  simpa using h.2

lemma teamMeansOf_const (T : Nat) (t : TeamsMap) (r : ℚ)
    (hall : ∀ j < T, ∀ p ∈ t j, p.overall = r) :
    ∀ y ∈ teamMeansOf T t, y = r := by
  intro y hy
  rw [teamMeansOf] at hy
  obtain ⟨j, hj, rfl⟩ := List.mem_map.mp hy
  obtain ⟨hjT, hjne⟩ := teamsKeys_mem T t j hj
  exact teamAvg_const (t j) r hjne (hall j hjT)

lemma buildTeamOutputs_avg (t : TeamsMap) :
    ∀ (ks : List Nat) (outs : List TeamOutput), buildTeamOutputs t ks = .ok outs →
      outs.length = ks.length ∧
      ∀ o ∈ outs, ∃ j ∈ ks, o.average_rating = teamAvg (t j) := by
  intro ks
  induction ks with
  | nil =>
    intro outs h
    rw [buildTeamOutputs] at h
    cases h
    simp
  | cons j rest ih =>
    intro outs h
    rw [buildTeamOutputs] at h
    cases hto : teamOutputOf j (t j) with
    | error e => rw [hto] at h; cases h
    | ok o =>
      rw [hto] at h
      cases hbr : buildTeamOutputs t rest with
      | error e => rw [hbr] at h; cases h
      | ok os =>
        rw [hbr] at h
        cases h
        obtain ⟨hlen, hall⟩ := ih os hbr
        refine ⟨by simp [hlen], ?_⟩
        intro o' ho'
        rcases List.mem_cons.mp ho' with rfl | ho'
        · refine ⟨j, by simp, ?_⟩
          rw [teamOutputOf] at hto
          cases hpd : posDistOf (t j) with
          | error e => rw [hpd] at hto; cases hto
          | ok dist => rw [hpd] at hto; cases hto; rfl
        · obtain ⟨j', hj', he⟩ := hall o' ho'
          exact ⟨j', by simp [hj'], he⟩

/-- C8: for any team assignment in which every player has the same rating `r`,
the computed maximum difference between team average ratings is 0 — both in the
core's `_try_balance_teams` computation (`maxDiffOf`) and in the API statistics
(`computeStatistics`). -/
theorem C8_constant_rating (T : Nat) (t : TeamsMap) (r : ℚ)
    (hall : ∀ j < T, ∀ p ∈ t j, p.overall = r)
    (hne : teamsNonempty T t = true) :
    maxDiffOf T t = some 0 ∧
    ∀ resp, computeStatistics T t = Except.ok resp → resp.max_rating_difference = 0 := by
  have hkeys : teamsKeys T t ≠ [] := by
    rw [teamsNonempty] at hne
    simpa using hne
  constructor
  · have hMnil : teamMeansOf T t ≠ [] := by
      rw [teamMeansOf]
      simpa using hkeys
    rw [maxDiffOf, pyMax_const _ r hMnil (teamMeansOf_const T t r hall),
      pyMin_const _ r hMnil (teamMeansOf_const T t r hall)]
    simp
  · intro resp hresp
    rw [computeStatistics] at hresp
    cases hb : buildTeamOutputs t (teamsKeys T t) with
    | error e => rw [hb] at hresp; cases hresp
    | ok outs =>
      rw [hb] at hresp
      dsimp only at hresp
      obtain ⟨hlen, havg⟩ := buildTeamOutputs_avg t (teamsKeys T t) outs hb
      have houtsne : outs ≠ [] := by
        apply List.ne_nil_of_length_pos
        rw [hlen]
        have := List.length_pos.mpr hkeys
        omega
      have hmeans : ∀ y ∈ outs.map TeamOutput.average_rating, y = r := by
        intro y hy
        obtain ⟨o, ho, rfl⟩ := List.mem_map.mp hy
        obtain ⟨j, hj, he⟩ := havg o ho
        obtain ⟨hjT, hjne⟩ := teamsKeys_mem T t j hj
        rw [he]
        exact teamAvg_const (t j) r hjne (hall j hjT)
      have hmne : outs.map TeamOutput.average_rating ≠ [] := by
        simpa using houtsne
      rw [pyMax_const _ r hmne hmeans, pyMin_const _ r hmne hmeans] at hresp
      by_cases hz : ((teamsKeys T t).flatMap t).length = 0
      · rw [if_pos hz] at hresp; cases hresp
      · rw [if_neg hz] at hresp
        injection hresp with h2
        rw [← h2]
        simp

/-- A dict of two teams in which every player has rating 3. -/
def tEx8 : TeamsMap :=
  fun j => if j < 2 then [⟨"x", 3, "DEF"⟩, ⟨"y", 3, "MID"⟩] else []

theorem C8_constant_rating_witness : maxDiffOf 2 tEx8 = some 0 :=
  (C8_constant_rating 2 tEx8 3 (by decide) (by decide)).1

lemma buildTeamOutputs_congr (t1 t2 : TeamsMap) :
    ∀ ks : List Nat, (∀ j ∈ ks, t1 j = t2 j) →
      buildTeamOutputs t1 ks = buildTeamOutputs t2 ks := by
  intro ks
  induction ks with
  | nil => intro _; rfl
  | cons j rest ih =>
    intro h
    rw [buildTeamOutputs, buildTeamOutputs]
    rw [h j (by simp), ih (fun k hk => h k (by simp [hk]))]

/-- C9: the statistics computation is a pure function of the team assignment:
it reads only the team lists of indices below `T`, so any two assignments that
agree there produce identical statistics — in particular invoking it twice on
the same assignment yields identical results, and nothing is mutated (the
embedding is state-free because the source loop only reads the assignment). -/
theorem C9_aggregator_deterministic (T : Nat) (t1 t2 : TeamsMap)
    (h : ∀ j < T, t1 j = t2 j) :
    computeStatistics T t1 = computeStatistics T t2 := by
  have hkeys : teamsKeys T t1 = teamsKeys T t2 := by
    rw [teamsKeys, teamsKeys]
    apply List.filter_congr
    intro j hj
    rw [h j (List.mem_range.mp hj)]
  have hmem : ∀ j ∈ teamsKeys T t1, t1 j = t2 j := by
    intro j hj
    exact h j (teamsKeys_mem T t1 j hj).1
  rw [computeStatistics, computeStatistics, ← hkeys,
    buildTeamOutputs_congr t1 t2 (teamsKeys T t1) hmem,
    flatMap_congr' (teamsKeys T t1) t1 t2 hmem]

/-- A one-team dict. -/
def tEx9a : TeamsMap := fun j => if j = 0 then [⟨"x", 1, "DEF"⟩] else []

/-- The same dict below index 1, with junk above it. -/
def tEx9b : TeamsMap :=
  fun j => if j = 0 then [⟨"x", 1, "DEF"⟩]
    else if j = 5 then [⟨"junk", 9, "GK"⟩] else []

theorem C9_aggregator_deterministic_witness :
    computeStatistics 1 tEx9a = computeStatistics 1 tEx9b :=
  C9_aggregator_deterministic 1 tEx9a tEx9b (by decide)

lemma posDistFold_error (p : Player)
    (hpos : p.position ≠ "DEF" ∧ p.position ≠ "MID" ∧ p.position ≠ "ATT") :
    ∀ ps : List Player, p ∈ ps → ∀ d : PosDist, ∃ e, posDistFold d ps = .error e := by
  intro ps
  induction ps with
  | nil => intro h; cases h
  | cons q rest ih =>
    intro hmem d
    rcases List.mem_cons.mp hmem with rfl | hmem'
    · refine ⟨"KeyError", ?_⟩
      rw [posDistFold, show posDistAdd d p = .error "KeyError" by
        rw [posDistAdd, if_neg hpos.1, if_neg hpos.2.1, if_neg hpos.2.2]]
    · rw [posDistFold]
      cases hpa : posDistAdd d q with
      | error e => exact ⟨e, rfl⟩
      | ok d' =>
        obtain ⟨e, he⟩ := ih hmem' d'
        exact ⟨e, he⟩

lemma teamOutputOf_error (j : Nat) (ps : List Player) (p : Player) (hp : p ∈ ps)
    (hpos : p.position ≠ "DEF" ∧ p.position ≠ "MID" ∧ p.position ≠ "ATT") :
    ∃ e, teamOutputOf j ps = .error e := by
  obtain ⟨e, he⟩ := posDistFold_error p hpos ps hp ⟨0, 0, 0⟩
  refine ⟨e, ?_⟩
  rw [teamOutputOf, posDistOf, he]

lemma buildTeamOutputs_error (t : TeamsMap) :
    ∀ ks : List Nat, (∃ j ∈ ks, ∃ e, teamOutputOf j (t j) = .error e) →
      ∃ e, buildTeamOutputs t ks = .error e := by
  intro ks
  induction ks with
  | nil => rintro ⟨j, hj, -⟩; cases hj
  | cons k rest ih =>
    rintro ⟨j, hj, e, he⟩
    rw [buildTeamOutputs]
    rcases List.mem_cons.mp hj with rfl | hj'
    · exact ⟨e, by rw [he]⟩
    · cases hto : teamOutputOf k (t k) with
      | error e2 => exact ⟨e2, rfl⟩
      | ok o =>
        obtain ⟨e3, he3⟩ := ih ⟨j, hj', e, he⟩
        refine ⟨e3, ?_⟩
        rw [he3]

lemma teamsNonempty_of_mem (T : Nat) (t : TeamsMap) (j : Nat) (hj : j < T)
    (hne : t j ≠ []) : teamsNonempty T t = true := by
  have hjk : j ∈ teamsKeys T t := by
    rw [teamsKeys, List.mem_filter]
    exact ⟨List.mem_range.mpr hj, by simpa using hne⟩
  rw [teamsNonempty]
  have := List.ne_nil_of_mem hjk
  simpa [List.isEmpty_iff] using this

/-- C10: if a returned team assignment contains a player whose position is not
DEF, MID or ATT, the API statistics computation hits a `KeyError` on the fixed
position-distribution dictionary, so both `/balance/json` and `/balance/csv`
answer with HTTP status 500 instead of a `BalanceResponse`. -/
theorem C10_unknown_position (T : Nat) (t : TeamsMap) (j : Nat) (p : Player)
    (hj : j < T) (hp : p ∈ t j)
    (hpos : p.position ≠ "DEF" ∧ p.position ≠ "MID" ∧ p.position ≠ "ATT") :
    balanceJsonStatus T t = 500 ∧ balanceCsvStatus T t = 500 := by
  have htne : t j ≠ [] := List.ne_nil_of_mem hp
  have hnon := teamsNonempty_of_mem T t j hj htne
  have hjk : j ∈ teamsKeys T t := by
    rw [teamsKeys, List.mem_filter]
    exact ⟨List.mem_range.mpr hj, by simpa using htne⟩
  obtain ⟨e, he⟩ := teamOutputOf_error j (t j) p hp hpos
  obtain ⟨e2, he2⟩ := buildTeamOutputs_error t (teamsKeys T t) ⟨j, hjk, e, he⟩
  have hcs : computeStatistics T t = .error e2 := by
    rw [computeStatistics, he2]
  have hbody : balanceJsonBody T t = .error e2 := by
    rw [balanceJsonBody, if_neg (by rw [hnon]; simp), hcs]
  have hbody2 : balanceCsvBody T t = .error e2 := by
    rw [balanceCsvBody, if_neg (by rw [hnon]; simp), hcs]
  constructor
  · rw [balanceJsonStatus, hbody]
  · rw [balanceCsvStatus, hbody2]

/-- A dict whose only team contains a goalkeeper — a position outside the
fixed DEF/MID/ATT distribution keys. -/
def tEx10 : TeamsMap := fun j => if j = 0 then [⟨"bad", 1, "GK"⟩] else []

theorem C10_unknown_position_witness :
    balanceJsonStatus 1 tEx10 = 500 ∧ balanceCsvStatus 1 tEx10 = 500 :=
  C10_unknown_position 1 tEx10 0 ⟨"bad", 1, "GK"⟩ (by decide) (by decide) (by decide)
